import Mathlib

/-!
Verification of the X Feed Curator relevance-scoring and ranked-filtering engine
(content script of `popup.js`), shallowly embedded in Lean.

Modelling conventions:
* JavaScript 32-bit integer arithmetic (`Math.imul`, `^`, `<<`, `>>>`) is modelled
  on `Nat` with explicit `% 2^32` where the source truncates; signed/unsigned
  representation does not matter because only the low 32 bits are ever observed.
* IEEE floating point arithmetic (`Math.exp`, `Math.sqrt`, `Float32Array`) is
  modelled with exact real arithmetic over `ℝ`; the "within
  floating tolerance" equalities of the specification become exact equalities in this idealised model.
  `-Infinity`, used by the source only to seed a running maximum over a nonempty
  list, is modelled by taking the fold over the tail seeded with the head.
* JavaScript strings are modelled as `String` / `List Char`; `charCodeAt` is
  modelled by the code point of the character (identical for all BMP characters),
  and `toLowerCase` by ASCII lowercasing (`Char.toLower`), which agrees with
  JavaScript on all inputs considered here.
* DOM side effects (`hidePost` / `showPost`) only mirror the `hidden` flag kept
  in `state.processedPosts`; the model tracks the flag, which the source treats
  as authoritative.
* `state.processedPosts` is a JS `Map`; it is modelled as an association list in
  insertion order, `Map.set` preserving the position of an existing key.
-/

namespace XFC

open List

/-! ### JavaScript string primitives -/

/-- The character class `\s` of JavaScript regular expressions (also the set
trimmed by `String.prototype.trim`). -/
def jsSpaceB (c : Char) : Bool :=
  c == ' ' || c == '\t' || c == '\n' || c.toNat == 0x0b || c.toNat == 0x0c || c == '\r' ||
  c.toNat == 0xa0 || c.toNat == 0x1680 ||
  (decide (0x2000 ≤ c.toNat) && decide (c.toNat ≤ 0x200a)) ||
  c.toNat == 0x2028 || c.toNat == 0x2029 || c.toNat == 0x202f || c.toNat == 0x205f ||
  c.toNat == 0x3000 || c.toNat == 0xfeff

/-- Model of `String.prototype.trim` on a character list. -/
def jsTrimL (l : List Char) : List Char :=
  ((l.dropWhile jsSpaceB).reverse.dropWhile jsSpaceB).reverse

/-- Model of `String.prototype.trim`. -/
def jsTrim (s : String) : String := ⟨jsTrimL s.toList⟩

/-- Whether `pat` is a leading substring of the second argument
(`String.prototype.startsWith`). -/
def isPre : List Char → List Char → Bool
  | [], _ => true
  | _ :: _, [] => false
  | p :: ps, c :: cs => p == c && isPre ps cs

/-- Model of `String.prototype.includes`: `pat` occurs somewhere in the first argument. -/
def hasSub : List Char → List Char → Bool
  | [], pat => isPre pat []
  | c :: cs, pat => isPre pat (c :: cs) || hasSub cs pat

/-- Model of `String.prototype.split` with a non-empty string separator: cut at each
leftmost non-overlapping occurrence of `sep`.  Pieces are accumulated reversed
in `acc`.  The recursion is driven by a fuel counter (one unit per examined
character) so that the definition is structural; every step consumes at least
one character, so `length + 1` units always suffice. -/
def jsSplitAux (sep : List Char) : Nat → List Char → List Char → List (List Char)
  | _, [], acc => [acc.reverse]
  | 0, l, acc => [acc.reverse ++ l]
  | fuel + 1, c :: cs, acc =>
    if !sep.isEmpty && isPre sep (c :: cs) then
      acc.reverse :: jsSplitAux sep fuel (cs.drop (sep.length - 1)) []
    else
      jsSplitAux sep fuel cs (c :: acc)

/-- Model of `String.prototype.split` (string separator). -/
def jsSplitList (s sep : List Char) : List (List Char) := jsSplitAux sep (s.length + 1) s []

/-- Value of a run of decimal digits (`parseInt` on the capture of `(\d+)`). -/
def digitsVal (ds : List Char) : Nat := ds.foldl (fun n c => n * 10 + (c.toNat - 48)) 0

/-- Attempt to match the regular expression `top\s+(\d+)` (case-insensitively)
at the head of the list: on success, the value of the digit capture and the
length of the whole match.  `\s+` and `\d+` take maximal runs; since the two
classes are disjoint the greedy match needs no backtracking. -/
def matchTop (l : List Char) : Option (Nat × Nat) :=
  match l with
  | c1 :: c2 :: c3 :: rest =>
    if (c1 == 't' || c1 == 'T') && (c2 == 'o' || c2 == 'O') && (c3 == 'p' || c3 == 'P') then
      let ws := rest.takeWhile jsSpaceB
      let ds := (rest.drop ws.length).takeWhile Char.isDigit
      if ws.isEmpty || ds.isEmpty then none
      else some (digitsVal ds, 3 + ws.length + ds.length)
    else none
  | _ => none

/-- Leftmost match of `/top\s+(\d+)/i`: start index, captured value, match
length (`String.prototype.match` / the first match used by `replace`). -/
def findTop : List Char → Option (Nat × Nat × Nat)
  | [] => none
  | c :: cs =>
    match matchTop (c :: cs) with
    | some (v, len) => some (0, v, len)
    | none => (findTop cs).map fun r => (r.1 + 1, r.2.1, r.2.2)

/-- Maximal runs of non-whitespace characters, i.e.
`split(/\s+/).filter(Boolean)`: splitting on `\s+` yields the non-whitespace
runs plus possibly empty first/last pieces, which `filter(Boolean)` drops. -/
def splitWordsAux : List Char → List Char → List (List Char)
  | [], acc => if acc.isEmpty then [] else [acc.reverse]
  | c :: cs, acc =>
    if jsSpaceB c then
      if acc.isEmpty then splitWordsAux cs [] else acc.reverse :: splitWordsAux cs []
    else splitWordsAux cs (c :: acc)

/-- Model of `AttentionRanker.tokenize`:
`text.toLowerCase().split(/\s+/).filter(Boolean)`. -/
def tokenize (text : String) : List (List Char) :=
  splitWordsAux (text.toList.map Char.toLower) []

/-! ### Deterministic token embedder (`AttentionRanker`) -/

/-- Model of `hash32`: FNV-1a over the UTF-16 code units, on the low 32 bits
(`Math.imul` keeps the low 32 bits of the product; `h >>> 0` reads the result
as unsigned, which the `Nat` model is throughout). -/
def hash32 (word : List Char) : Nat :=
  word.foldl (fun h c => ((h ^^^ c.toNat) * 16777619) % 4294967296) 2166136261

def vocabSize : Nat := 8192

def embedDim : Nat := 128

/-- Model of `tokenIdFor`. -/
def tokenIdFor (word : List Char) : Nat := hash32 word % vocabSize

/-- One round of the xorshift32 generator
(`x ^= x << 13; x ^= x >>> 17; x ^= x << 5`, each step truncated to 32 bits). -/
def xorshift (x : Nat) : Nat :=
  let x1 := x ^^^ ((x <<< 13) % 4294967296)
  let x2 := x1 ^^^ (x1 >>> 17)
  x2 ^^^ ((x2 <<< 5) % 4294967296)

/-- The generator state after `i + 1` rounds from `seed` (the source updates
`x` once per output dimension and reads the updated value). -/
def embState (seed : Nat) : Nat → Nat
  | 0 => xorshift seed
  | i + 1 => xorshift (embState seed i)

/-- Model of `embeddingForTokenId`: dimension `i` is the low 16 bits of the `i`-th
generator state, mapped linearly into `[-0.1, 0.1]`. -/
noncomputable def embeddingForTokenId (tokenId : Nat) : Fin 128 → ℝ := fun i =>
  ((embState ((tokenId + 1) % 4294967296) i.val % 65536 : ℕ) : ℝ) / 65535 * 0.2 - 0.1

/-- Model of `meanEmbeddingForText`: unweighted mean of the token embeddings; the zero
vector for blank text. -/
noncomputable def meanEmbeddingForText (text : String) : Fin 128 → ℝ :=
  let words := tokenize text
  if words.isEmpty then fun _ => 0
  else fun i => ((words.map fun w => embeddingForTokenId (tokenIdFor w) i).sum) / (words.length : ℝ)

/-- Model of `AttentionRanker.buildQueryVector`. -/
noncomputable def buildQueryVector (queryText : String) : Fin 128 → ℝ :=
  meanEmbeddingForText queryText

/-! ### Cosine similarity -/

/-- Model of `cosineSimilarity`.  A JS `null`/`undefined` argument is modelled by
`none`.  The source accumulates the dot product and both squared norms in one
loop over the common indices, having already returned `0` on length mismatch. -/
noncomputable def cosineSimilarity (embedding1 embedding2 : Option (List ℝ)) : ℝ :=
  match embedding1, embedding2 with
  | none, _ => 0
  | _, none => 0
  | some e1, some e2 =>
    if e1.length ≠ e2.length then 0
    else
      let dotProduct := ((e1.zip e2).map fun p => p.1 * p.2).sum
      let norm1 := (e1.map fun x => x * x).sum
      let norm2 := (e2.map fun x => x * x).sum
      if norm1 = 0 ∨ norm2 = 0 then 0
      else dotProduct / (Real.sqrt norm1 * Real.sqrt norm2)

/-! ### Attention scorer (`AttentionRanker.attentionScore`), staged -/

/-- Model of `Math.sqrt(embedDim)`, the attention scale. -/
noncomputable def scale : ℝ := Real.sqrt 128

/-- Dot product of two 128-dimensional vectors (the inner loop over `j`). -/
noncomputable def dotQ (e q : Fin 128 → ℝ) : ℝ := ∑ j, e j * q j

/-- The per-token embeddings of a text, in token order. -/
noncomputable def tokenEmbeddings (text : String) : List (Fin 128 → ℝ) :=
  (tokenize text).map fun w => embeddingForTokenId (tokenIdFor w)

/-- Scaled dot products of each token embedding with the query vector
(`scores[i] = dp / scale`). -/
noncomputable def rawScores (text : String) (queryVec : Fin 128 → ℝ) : List ℝ :=
  (tokenEmbeddings text).map fun e => dotQ e queryVec / scale

/-- Maximum of a score list.  The source seeds the running maximum with
`-Infinity` and only uses it on nonempty lists, where it equals this fold. -/
noncomputable def listMax : List ℝ → ℝ
  | [] => 0
  | x :: xs => xs.foldl max x

/-- Exponentials of the max-subtracted scores
(`scores[i] = Math.exp(scores[i] - max)`). -/
noncomputable def expScores (text : String) (queryVec : Fin 128 → ℝ) : List ℝ :=
  (rawScores text queryVec).map fun s => Real.exp (s - listMax (rawScores text queryVec))

/-- Softmax weights: `weights[i] = scores[i] / (sum || 1)` (the fallback
divisor `1` is used exactly when the raw exponential sum is `0`). -/
noncomputable def attnWeights (text : String) (queryVec : Fin 128 → ℝ) : List ℝ :=
  (expScores text queryVec).map fun s =>
    s / (if (expScores text queryVec).sum = 0 then 1 else (expScores text queryVec).sum)

/-- Context vector: `ctx[j] = Σ_i e_i[j] * w_i`. -/
noncomputable def ctxVec (text : String) (queryVec : Fin 128 → ℝ) : Fin 128 → ℝ := fun j =>
  (((tokenEmbeddings text).zip (attnWeights text queryVec)).map fun p => p.1 j * p.2).sum

/-- Model of `attentionScore`: `(0, [])` for blank text, otherwise the cosine of the
context vector with the query plus the weight sequence. -/
noncomputable def attentionScore (text : String) (queryVec : Fin 128 → ℝ) : ℝ × List ℝ :=
  if (tokenize text).isEmpty then (0, [])
  else
    (cosineSimilarity (some (List.ofFn (ctxVec text queryVec))) (some (List.ofFn queryVec)),
     attnWeights text queryVec)

/-- The scalar relevance used by the filtering engine
(`const { score } = AttentionRanker.attentionScore(...)`). -/
noncomputable def relevance (text : String) (queryVec : Fin 128 → ℝ) : ℝ :=
  (attentionScore text queryVec).1

/-! ### Command parsing (`parseCommand`) -/

inductive Mode where
  | hide : Mode
  | show' : Mode
deriving DecidableEq

/-- The four scalar/string fields `parseCommand` computes before building the
query vector (the vector is attached afterwards from the final query text, as
in the source).  `threshold` is the exact rational value of the float literal
`0.5`. -/
structure ParsedMeta where
  query : String
  mode : Mode
  topK : Nat
  threshold : ℚ
deriving DecidableEq

/-- The branch structure of `parseCommand` up to building the query vector:
`hide ` / `remove ` prefixes, `show ` / `only ` prefixes (with `top <n>`
extraction and removal from the query), the `only show ` substring fallback
(query taken from the lower-cased split), else the default hide filter over
the whole trimmed text. -/
def parseCommandCore (command : String) : Option ParsedMeta :=
  let text := jsTrim command
  if text = "" then none
  else
    let tl := text.toList
    let low := tl.map Char.toLower
    some <|
      if isPre "hide ".toList low then
        { query := ⟨jsTrimL (tl.drop 5)⟩, mode := .hide, topK := 20, threshold := 1/2 }
      else if isPre "remove ".toList low then
        { query := ⟨jsTrimL (tl.drop 7)⟩, mode := .hide, topK := 20, threshold := 1/2 }
      else if isPre "show ".toList low || isPre "only ".toList low then
        let q0 := jsTrimL (tl.drop 5)
        match findTop q0 with
        | some (start, v, len) =>
          { query := ⟨jsTrimL (q0.take start ++ q0.drop (start + len))⟩, mode := .show',
            topK := v, threshold := 1/2 }
        | none => { query := ⟨q0⟩, mode := .show', topK := 20, threshold := 1/2 }
      else if hasSub low "only show ".toList then
        { query := ⟨jsTrimL (((jsSplitList low "only show ".toList).get? 1).getD [])⟩,
          mode := .show', topK := 20, threshold := 1/2 }
      else { query := text, mode := .hide, topK := 20, threshold := 1/2 }

/-- An active filter
(`{ query, mode, queryVec, topK, threshold }` in `state.filters`). -/
structure Filter where
  query : String
  mode : Mode
  queryVec : Fin 128 → ℝ
  topK : Nat
  threshold : ℝ

/-- Model of `parseCommand`: the parsed fields plus the query vector built from the
final query text (`AttentionRanker.buildQueryVector(query)`). -/
noncomputable def parseCommand (command : String) : Option Filter :=
  (parseCommandCore command).map fun r =>
    { query := r.query, mode := r.mode, queryVec := buildQueryVector r.query,
      topK := r.topK, threshold := (r.threshold : ℝ) }

/-- The vector-free metadata persisted to `chrome.storage.local`. -/
structure FilterMeta where
  query : String
  mode : Mode
  topK : Nat
  threshold : ℝ

/-- The metadata tuple emitted for one filter after add/remove
(`state.filters.map(f => ({query, mode, topK, threshold}))`). -/
def persistMeta (f : Filter) : FilterMeta :=
  ⟨f.query, f.mode, f.topK, f.threshold⟩

/-- One iteration of the restore loop in `init` of the content script:
re-parse the saved query text, then overwrite `topK` and `threshold` from the
saved metadata. -/
noncomputable def restoreFilter (meta : FilterMeta) : Option Filter :=
  (parseCommand meta.query).map fun f =>
    { f with topK := meta.topK, threshold := meta.threshold }

/-! ### Ranked filtering engine -/

/-- Value of `state.processedPosts`: cached text plus visibility flag. -/
structure PostData where
  text : String
  hidden : Bool
deriving DecidableEq

/-- A post record extracted from a network payload. -/
structure Post where
  id : String
  text : String
deriving DecidableEq

/-- One entry of the `similarities` array
(`{ postId, similarity, postData }`). -/
structure Sim where
  postId : String
  similarity : ℝ
  postData : PostData

/-- Score every known post against the query vector of one filter, in map
iteration order. -/
noncomputable def scoreAll (posts : List (String × PostData)) (qv : Fin 128 → ℝ) : List Sim :=
  posts.map fun q => ⟨q.1, relevance q.2.text qv, q.2⟩

/-- The sort order of `similarities.sort((a, b) => b.similarity - a.similarity)`:
`a` may precede `b` iff `b.similarity ≤ a.similarity` (descending). -/
noncomputable def simLE (a b : Sim) : Bool := decide (b.similarity ≤ a.similarity)

/-- JS `Array.prototype.sort` is stable (ES2019), modelled by a stable merge
sort under the descending comparator. -/
noncomputable def sortSims (sims : List Sim) : List Sim := sims.mergeSort simLE

/-- Effect of `item.postData.hidden = true` on the shared post map: the entry
with that key gets its flag set (ids never change). -/
def setHidden (m : List (String × PostData)) (pid : String) : List (String × PostData) :=
  m.map fun q => if q.1 = pid then (q.1, { q.2 with hidden := true }) else q

/-- One iteration of the hide-branch loop over the sorted similarity list. -/
noncomputable def hideStep (f : Filter) (m : List (String × PostData)) (it : Sim) :
    List (String × PostData) :=
  if f.threshold ≤ it.similarity then setHidden m it.postId else m

/-- The hide-mode branch of `applyRankedFiltering`. -/
noncomputable def applyHide (posts : List (String × PostData)) (f : Filter) :
    List (String × PostData) :=
  (sortSims (scoreAll posts f.queryVec)).foldl (hideStep f) posts

/-- The show-mode branch of `applyRankedFiltering`: retain the ids of
the first `topK || 20` sorted entries, show those, hide every other known
post. -/
noncomputable def applyShow (posts : List (String × PostData)) (f : Filter) :
    List (String × PostData) :=
  let sorted := sortSims (scoreAll posts f.queryVec)
  let topK : Nat := if f.topK = 0 then 20 else f.topK
  let topPosts : List String := (sorted.take topK).map fun it => it.postId
  posts.map fun q =>
    if q.1 ∈ topPosts then (q.1, { q.2 with hidden := false })
    else (q.1, { q.2 with hidden := true })

/-- The per-filter body of the `for (const filter of state.filters)` loop. -/
noncomputable def applyFilter (posts : List (String × PostData)) (f : Filter) :
    List (String × PostData) :=
  match f.mode with
  | .hide => applyHide posts f
  | .show' => applyShow posts f

/-- Model of `state.stats`. -/
structure Stats where
  processed : Nat
  hidden : Nat
deriving DecidableEq

/-- The content-script state relevant to scoring and filtering. -/
structure XState where
  filters : List Filter
  processedPosts : List (String × PostData)
  postBatch : List Post
  stats : Stats

/-- Model of `applyRankedFiltering`: with no filters, unhide everything and report 0;
otherwise apply each filter in insertion order to the shared post map, then
recount the hidden posts. -/
noncomputable def applyRankedFiltering (st : XState) : XState :=
  if st.filters.length = 0 then
    { st with
      processedPosts := st.processedPosts.map fun q => (q.1, { q.2 with hidden := false }),
      stats := { st.stats with hidden := 0 } }
  else
    let pp := st.filters.foldl applyFilter st.processedPosts
    { st with
      processedPosts := pp,
      stats := { st.stats with hidden := (pp.filter fun q => q.2.hidden).length } }

/-- Model of `CONFIG.batchSize`. -/
def batchSize : Nat := 30

/-- JS `Map.prototype.set`: update in place if the key exists (keeping its
position), else append. -/
def mapSet (m : List (String × PostData)) (k : String) (v : PostData) :
    List (String × PostData) :=
  if m.any fun q => q.1 == k then m.map fun q => if q.1 == k then (k, v) else q
  else m ++ [(k, v)]

/-- Model of `processBatch`: no-op on an empty buffer; otherwise
`splice(0, batchSize)` removes the first `batchSize` buffered posts, caches
their text as visible entries of the post map, counts them processed, and runs
a filtering pass. -/
noncomputable def processBatch (st : XState) : XState :=
  if st.postBatch.length = 0 then st
  else
    let batch := st.postBatch.take batchSize
    let pp := batch.foldl (fun m p => mapSet m p.id ⟨p.text, false⟩) st.processedPosts
    applyRankedFiltering
      { st with
        processedPosts := pp,
        postBatch := st.postBatch.drop batchSize,
        stats := { st.stats with processed := st.stats.processed + batch.length } }

/-- Model of `processPostData` on one extracted payload: drop posts whose id is already
in the processed map, append the rest to the buffer, and trigger a pass at the
size threshold.  (Below the threshold the source arms a 500 ms debounce timer
whose expiry runs the same `processBatch` on the then-current state.) -/
noncomputable def processPostData (st : XState) (posts : List Post) : XState :=
  if posts.length = 0 then st
  else
    let newPosts := posts.filter fun p => !(st.processedPosts.any fun q => q.1 == p.id)
    if newPosts.length = 0 then st
    else
      let st' := { st with postBatch := st.postBatch ++ newPosts }
      if batchSize ≤ st'.postBatch.length then processBatch st' else st'

/-! ### Parsing lemmas -/

lemma jsTrim_of_all_space (s : String) (h : ∀ c ∈ s.toList, jsSpaceB c) : jsTrim s = "" := by
  have h1 : List.dropWhile jsSpaceB s.data = [] := List.dropWhile_eq_nil_iff.mpr h
  simp [jsTrim, jsTrimL, h1]

lemma parseCommand_of_trim_empty (s : String) (h : jsTrim s = "") : parseCommand s = none := by
  simp [parseCommand, parseCommandCore, h]

/-- Claim C3: `parse("hide sports")` yields mode hide, query `"sports"`,
threshold `0.5`; `parse("show top 10 tech")` yields mode show, query `"tech"`,
`topK = 10` (the matched `top 10` removed from the query); parsing an empty or
whitespace-only command returns `null` rather than an error. -/
theorem C3_parse_grammar :
    ((parseCommand "hide sports").map fun f => (f.mode, f.query, f.threshold))
      = some (Mode.hide, "sports", (0.5 : ℝ))
    ∧ ((parseCommand "show top 10 tech").map fun f => (f.mode, f.query, f.topK))
      = some (Mode.show', "tech", 10)
    ∧ ∀ s : String, (∀ c ∈ s.toList, jsSpaceB c) → parseCommand s = none := by
  have h1 : parseCommandCore "hide sports" = some ⟨"sports", Mode.hide, 20, 1/2⟩ := by rfl
  have h2 : parseCommandCore "show top 10 tech" = some ⟨"tech", Mode.show', 10, 1/2⟩ := by rfl
  refine ⟨?_, ?_, fun s hs => parseCommand_of_trim_empty s (jsTrim_of_all_space s hs)⟩
  · rw [parseCommand, h1]
    simp
    norm_num
  · rw [parseCommand, h2]
    simp

/-- Claim C3 witness: the whitespace-only case evaluated at a concrete
two-space command. -/
theorem C3_witness : parseCommand "  " = none :=
  C3_parse_grammar.2.2 "  " (by decide)

/-- Claim C2 counterexample: `parse("only show ai news")` does not yield query
`"ai news"`: the command starts with `only `, so the `show `/`only ` prefix
branch fires first and the query is `"show ai news"`. -/
theorem C2_counterexample :
    ((parseCommand "only show ai news").map fun f => (f.mode, f.query))
      = some (Mode.show', "show ai news")
    ∧ ((parseCommand "only show ai news").map fun f => f.query) ≠ some "ai news" := by
  have h : parseCommandCore "only show ai news"
      = some ⟨"show ai news", Mode.show', 20, 1/2⟩ := by rfl
  rw [parseCommand, h]
  refine ⟨by simp, by simp⟩

/-- Claim C2 amended: the `"only show "` substring branch is reached exactly
when none of the four prefixes matched, and then produces mode show with query
equal to the trimmed lower-cased text between the first occurrence of
`"only show "` and the next occurrence (or the end) — the second piece of the
JS `split`.  The example `parse("only show ai news")` of the spec instead takes the
`"only "` prefix branch, yielding query `"show ai news"`. -/
theorem C2_amended :
    (((parseCommand "only show ai news").map fun f => (f.mode, f.query))
      = some (Mode.show', "show ai news"))
    ∧ ∀ s : String,
        jsTrim s ≠ "" →
        isPre "hide ".toList ((jsTrim s).toList.map Char.toLower) = false →
        isPre "remove ".toList ((jsTrim s).toList.map Char.toLower) = false →
        isPre "show ".toList ((jsTrim s).toList.map Char.toLower) = false →
        isPre "only ".toList ((jsTrim s).toList.map Char.toLower) = false →
        hasSub ((jsTrim s).toList.map Char.toLower) "only show ".toList = true →
        (parseCommand s).map (fun f => (f.mode, f.query))
          = some (Mode.show',
              ⟨jsTrimL (((jsSplitList ((jsTrim s).toList.map Char.toLower)
                  "only show ".toList).get? 1).getD [])⟩) := by
  constructor
  · have h : parseCommandCore "only show ai news"
        = some ⟨"show ai news", Mode.show', 20, 1/2⟩ := by rfl
    rw [parseCommand, h]
    simp
  · intro s h0 h1 h2 h3 h4 h5
    simp only [parseCommand, parseCommandCore, h0, h1, h2, h3, h4, h5,
      if_neg h0, Bool.false_eq_true, if_false, Bool.or_self, if_true,
      Option.map_some]
    simp

/-- Claim C2 witness: a command where the substring branch genuinely fires
(no recognised prefix). -/
theorem C2_witness :
    (parseCommand "please only show cats").map (fun f => (f.mode, f.query))
      = some (Mode.show', "cats") := by
  have h := C2_amended.2 "please only show cats" (by decide) (by decide) (by decide)
    (by decide) (by decide) (by decide)
  rw [h]
  decide

/-- Claim C9: a non-empty command matching none of the four prefixes and not
containing `"only show "` still produces a filter: the default hide filter
over the whole trimmed command text, with threshold `0.5` and `topK = 20`. -/
theorem C9_default_hide :
    ∀ s : String,
      jsTrim s ≠ "" →
      isPre "hide ".toList ((jsTrim s).toList.map Char.toLower) = false →
      isPre "remove ".toList ((jsTrim s).toList.map Char.toLower) = false →
      isPre "show ".toList ((jsTrim s).toList.map Char.toLower) = false →
      isPre "only ".toList ((jsTrim s).toList.map Char.toLower) = false →
      hasSub ((jsTrim s).toList.map Char.toLower) "only show ".toList = false →
      (parseCommand s).map (fun f => (f.mode, f.query, f.topK, f.threshold))
        = some (Mode.hide, jsTrim s, 20, (0.5 : ℝ)) := by
  intro s h0 h1 h2 h3 h4 h5
  simp only [parseCommand, parseCommandCore, h0, h1, h2, h3, h4, h5,
    if_neg h0, Bool.false_eq_true, if_false, Bool.or_self, Option.map_some]
  norm_num

/-- Claim C9 witness: the bare command `"sports"` silently becomes a hide
filter for `"sports"`. -/
theorem C9_witness :
    (parseCommand "sports").map (fun f => (f.mode, f.query, f.topK, f.threshold))
      = some (Mode.hide, "sports", 20, (0.5 : ℝ)) := by
  have h := C9_default_hide "sports" (by decide) (by decide) (by decide)
    (by decide) (by decide) (by decide)
  simpa using h

/-- Claim C1 (code bug): the restore loop re-parses the saved query text and
keeps the mode of the re-parse, overwriting only `topK` and `threshold` from
the saved metadata.  A filter created from `"show top 10 tech"` is persisted
as `{query := "tech", mode := show, topK := 10, threshold := 0.5}`, but
restoring yields mode hide — the persisted mode is ignored. -/
theorem C1_restore_drops_mode :
    ((parseCommand "show top 10 tech").map fun f => (f.mode, f.query, f.topK))
      = some (Mode.show', "tech", 10)
    ∧ ((parseCommand "show top 10 tech").bind fun f =>
        (restoreFilter (persistMeta f)).map fun g => (g.mode, g.query, g.topK, g.threshold))
      = some (Mode.hide, "tech", 10, (0.5 : ℝ)) := by
  have h2 : parseCommandCore "show top 10 tech" = some ⟨"tech", Mode.show', 10, 1/2⟩ := by rfl
  have h3 : parseCommandCore "tech" = some ⟨"tech", Mode.hide, 20, 1/2⟩ := by rfl
  constructor
  · rw [parseCommand, h2]
    simp
  · rw [parseCommand, h2]
    simp [restoreFilter, persistMeta, parseCommand, h3]
    norm_num

/-! ### Cosine similarity: claim C8 -/

lemma zip_self_map (v : List ℝ) : ((v.zip v).map fun p => p.1 * p.2) = v.map fun x => x * x := by
  induction v with
  | nil => rfl
  | cons a t ih => simp [ih]

lemma sumSq_nonneg (v : List ℝ) : 0 ≤ (v.map fun x => x * x).sum := by
  apply List.sum_nonneg
  intro y hy
  obtain ⟨x, _, rfl⟩ := List.mem_map.mp hy
  exact mul_self_nonneg x

lemma sumSq_eq_zero (v : List ℝ) (h : (v.map fun x => x * x).sum = 0) : ∀ x ∈ v, x = 0 := by
  induction v with
  | nil => simp
  | cons a t ih =>
    simp only [List.map_cons, List.sum_cons] at h
    have ha : 0 ≤ a * a := mul_self_nonneg a
    have ht : 0 ≤ (t.map fun x => x * x).sum := sumSq_nonneg t
    have h1 : a * a = 0 := by linarith
    have h2 : (t.map fun x => x * x).sum = 0 := by linarith
    intro x hx
    rcases List.mem_cons.mp hx with rfl | hx
    · exact mul_self_eq_zero.mp h1
    · exact ih h2 x hx

/-- Claim C8: `cosineSimilarity` is total and returns exactly 0 whenever either
input is null/absent, the lengths differ, or either squared norm is 0; and for
every non-zero vector `v`, `cosineSimilarity v v = 1`. -/
theorem C8_cosine_safety :
    (∀ b, cosineSimilarity none b = 0)
    ∧ (∀ a, cosineSimilarity a none = 0)
    ∧ (∀ v w : List ℝ, v.length ≠ w.length → cosineSimilarity (some v) (some w) = 0)
    ∧ (∀ v w : List ℝ,
        (v.map fun x => x * x).sum = 0 ∨ (w.map fun x => x * x).sum = 0 →
        cosineSimilarity (some v) (some w) = 0)
    ∧ (∀ v : List ℝ, (∃ x ∈ v, x ≠ 0) → cosineSimilarity (some v) (some v) = 1) := by
  refine ⟨fun b => by cases b <;> rfl, fun a => by cases a <;> rfl,
    fun v w h => by simp [cosineSimilarity, h], fun v w h => ?_, fun v h => ?_⟩
  · by_cases hl : v.length = w.length
    · simp [cosineSimilarity, hl, h]
    · simp [cosineSimilarity, hl]
  · have hS : (v.map fun x => x * x).sum ≠ 0 := by
      intro h0
      obtain ⟨x, hx, hxne⟩ := h
      exact hxne (sumSq_eq_zero v h0 x hx)
    have hS0 : 0 ≤ (v.map fun x => x * x).sum := sumSq_nonneg v
    simp only [cosineSimilarity, ne_eq, not_true_eq_false, if_false, zip_self_map, hS,
      or_self, ite_false]
    rw [Real.mul_self_sqrt hS0, div_self hS]

/-- Claim C8 witness: the mismatched-length, zero-norm and self-similarity
cases evaluated at concrete vectors. -/
theorem C8_witness :
    cosineSimilarity (some [1, 2]) (some [1]) = 0
    ∧ cosineSimilarity (some [0, 0]) (some [0, 0]) = 0
    ∧ cosineSimilarity (some [3]) (some [3]) = 1 :=
  ⟨C8_cosine_safety.2.2.1 [1, 2] [1] (by norm_num),
   C8_cosine_safety.2.2.2.1 [0, 0] [0, 0] (by norm_num),
   C8_cosine_safety.2.2.2.2 [3] ⟨3, by norm_num, by norm_num⟩⟩

/-! ### Attention scorer: claim C7 -/

lemma toLower_of_space {c : Char} (h : jsSpaceB c = true) : Char.toLower c = c := by
  simp only [jsSpaceB, Bool.or_eq_true, beq_iff_eq, Bool.and_eq_true, decide_eq_true_eq] at h
  rcases h with ((((((((((((((h | h) | h) | h) | h) | h) | h) | h) | h) | h) | h) | h) | h) | h) | h) | h
  all_goals first
    | decide
    | (subst h; decide)
    | (simp only [Char.toLower]
       rw [if_neg]
       omega)

lemma splitWordsAux_all_space (l : List Char) (h : ∀ c ∈ l, jsSpaceB c) :
    splitWordsAux l [] = [] := by
  induction l with
  | nil => rfl
  | cons c cs ih =>
    have hc : jsSpaceB c := h c (List.mem_cons_self c cs)
    simp only [splitWordsAux, hc, if_true, List.isEmpty_nil, ite_true]
    exact ih fun x hx => h x (List.mem_cons_of_mem c hx)

lemma tokenize_all_space (s : String) (h : ∀ c ∈ s.toList, jsSpaceB c) : tokenize s = [] := by
  apply splitWordsAux_all_space
  intro c hc
  obtain ⟨c0, hc0, rfl⟩ := List.mem_map.mp hc
  rw [toLower_of_space (h c0 hc0)]
  exact h c0 hc0

lemma sum_map_div (l : List ℝ) (c : ℝ) : (l.map fun x => x / c).sum = l.sum / c := by
  induction l with
  | nil => simp
  | cons a t ih => simp [ih, add_div]

lemma expScores_sum_pos (text : String) (qv : Fin 128 → ℝ) (h : tokenize text ≠ []) :
    0 < (expScores text qv).sum := by
  apply List.sum_pos
  · intro x hx
    obtain ⟨s, _, rfl⟩ := List.mem_map.mp hx
    exact Real.exp_pos _
  · simp [expScores, rawScores, tokenEmbeddings, h]

/-- Claim C7: on empty or whitespace-only text, `attentionScore` returns
relevance 0 and an empty weight sequence for every query vector; on non-empty
text the weights are the max-subtracted softmax of the scaled dot products
(the raw exponential sum is nonzero, so the fallback divisor 1 is never used),
they sum to 1, and the relevance is the cosine similarity of the
weight-combined context vector with the query vector. -/
theorem C7_attention_reduction :
    (∀ (text : String) (qv : Fin 128 → ℝ), (∀ c ∈ text.toList, jsSpaceB c) →
        attentionScore text qv = (0, []))
    ∧ (∀ (text : String) (qv : Fin 128 → ℝ), tokenize text ≠ [] →
        (attentionScore text qv).2
          = (rawScores text qv).map (fun s =>
              Real.exp (s - listMax (rawScores text qv)) / (expScores text qv).sum)
        ∧ (expScores text qv).sum ≠ 0
        ∧ ((attentionScore text qv).2).sum = 1
        ∧ (attentionScore text qv).1
            = cosineSimilarity (some (List.ofFn (ctxVec text qv))) (some (List.ofFn qv))) := by
  constructor
  · intro text qv h
    rw [attentionScore, if_pos]
    simp [tokenize_all_space text h]
  · intro text qv h
    have hpos := expScores_sum_pos text qv h
    have hne : (expScores text qv).sum ≠ 0 := ne_of_gt hpos
    have hw : attnWeights text qv
        = (expScores text qv).map fun s => s / (expScores text qv).sum := by
      rw [attnWeights, if_neg hne]
    have hempty : ¬((tokenize text).isEmpty = true) := by simp [h]
    refine ⟨?_, hne, ?_, ?_⟩
    · rw [attentionScore, if_neg hempty]
      rw [hw, expScores, List.map_map]
      rfl
    · rw [attentionScore, if_neg hempty]
      simp only [hw]
      rw [sum_map_div, div_self hne]
    · rw [attentionScore, if_neg hempty]

/-- Claim C7 witness: the blank-text case at a one-space text, and the
weights-sum-to-1 case at the text `"hi"`. -/
theorem C7_witness :
    attentionScore " " (fun _ => 0) = (0, [])
    ∧ ((attentionScore "hi" (fun _ => 0)).2).sum = 1 :=
  ⟨C7_attention_reduction.1 " " (fun _ => 0) (by decide),
   (C7_attention_reduction.2 "hi" (fun _ => 0) (by decide)).2.2.1⟩

/-! ### Hide branch: claim C6 -/

lemma hideStep_as_map (f : Filter) (m : List (String × PostData)) (it : Sim) :
    hideStep f m it = m.map fun q =>
      if f.threshold ≤ it.similarity ∧ it.postId = q.1
      then (q.1, { q.2 with hidden := true }) else q := by
  by_cases hc : f.threshold ≤ it.similarity
  · rw [hideStep, if_pos hc, setHidden]
    refine List.map_congr_left fun q _ => ?_
    by_cases h2 : q.1 = it.postId
    · rw [if_pos h2, if_pos ⟨hc, h2.symm⟩]
    · rw [if_neg h2, if_neg fun hh => h2 hh.2.symm]
  · rw [hideStep, if_neg hc]
    have h3 : ∀ q ∈ m,
        (if f.threshold ≤ it.similarity ∧ it.postId = q.1
         then (q.1, { q.2 with hidden := true }) else q) = q :=
      fun q _ => if_neg fun hh => hc hh.1
    rw [List.map_congr_left h3]
    simp

lemma foldl_hideStep (f : Filter) (L : List Sim) (P : List (String × PostData)) :
    L.foldl (hideStep f) P = P.map fun q =>
      L.foldl (fun r it =>
        if f.threshold ≤ it.similarity ∧ it.postId = r.1
        then (r.1, { r.2 with hidden := true }) else r) q := by
  induction L generalizing P with
  | nil => simp
  | cons it L ih =>
    rw [List.foldl_cons, ih, hideStep_as_map, List.map_map]
    refine List.map_congr_left fun q _ => ?_
    rw [Function.comp_apply, List.foldl_cons]

lemma foldl_entry (f : Filter) (q : String × PostData) (L : List Sim) :
    L.foldl (fun r it =>
        if f.threshold ≤ it.similarity ∧ it.postId = r.1
        then (r.1, { r.2 with hidden := true }) else r) q
      = if ∃ it ∈ L, f.threshold ≤ it.similarity ∧ it.postId = q.1
        then (q.1, { q.2 with hidden := true }) else q := by
  induction L generalizing q with
  | nil => simp
  | cons it L ih =>
    rw [List.foldl_cons]
    by_cases hc : f.threshold ≤ it.similarity ∧ it.postId = q.1
    · rw [if_pos hc, ih]
      have hmem : ∃ x ∈ it :: L, f.threshold ≤ x.similarity ∧ x.postId = q.1 :=
        ⟨it, List.mem_cons_self it L, hc⟩
      rw [if_pos hmem]
      split_ifs <;> rfl
    · rw [if_neg hc, ih]
      have hiff : (∃ x ∈ it :: L, f.threshold ≤ x.similarity ∧ x.postId = q.1)
          ↔ (∃ x ∈ L, f.threshold ≤ x.similarity ∧ x.postId = q.1) := by
        constructor
        · rintro ⟨x, hx, hcond⟩
          rcases List.mem_cons.mp hx with rfl | hx'
          · exact absurd hcond hc
          · exact ⟨x, hx', hcond⟩
        · rintro ⟨x, hx, hcond⟩
          exact ⟨x, List.mem_cons_of_mem it hx, hcond⟩
      rw [if_congr hiff rfl rfl]

lemma assoc_value_unique {P : List (String × PostData)} (hnd : (P.map Prod.fst).Nodup)
    {k : String} {v w : PostData} (h1 : (k, v) ∈ P) (h2 : (k, w) ∈ P) : v = w := by
  have := List.inj_on_of_nodup_map hnd h1 h2 rfl
  exact congrArg Prod.snd this

/-- Claim C6: applying a hide-mode filter with threshold `T` marks hidden every
known post whose relevance is at least `T`, and leaves every entry with
relevance below `T` exactly as it was — in particular it never un-hides a post
hidden earlier in the same pass. -/
theorem C6_hide_accumulates (P : List (String × PostData)) (f : Filter)
    (hm : f.mode = Mode.hide) (hnd : (P.map Prod.fst).Nodup) :
    applyFilter P f
      = P.map fun q =>
          if f.threshold ≤ relevance q.2.text f.queryVec
          then (q.1, { q.2 with hidden := true }) else q := by
  have h0 : applyFilter P f = applyHide P f := by rw [applyFilter, hm]
  rw [h0, applyHide, foldl_hideStep]
  refine List.map_congr_left fun q hq => ?_
  rw [foldl_entry]
  refine if_congr ?_ rfl rfl
  constructor
  · rintro ⟨it, hit, hth, hid⟩
    rw [sortSims, List.mem_mergeSort, scoreAll] at hit
    obtain ⟨q', hq', rfl⟩ := List.mem_map.mp hit
    have hq'' : (q.1, q'.2) ∈ P := by
      have : ((q', ⟨q'.1, relevance q'.2.text f.queryVec, q'.2⟩) : _ × Sim).2.postId = q'.1 := rfl
      rw [← hid]
      simpa using hq'
    have hvv : q'.2 = q.2 := assoc_value_unique hnd hq'' (by simpa using hq)
    simpa [hvv] using hth
  · intro hth
    refine ⟨⟨q.1, relevance q.2.text f.queryVec, q.2⟩, ?_, hth, rfl⟩
    rw [sortSims, List.mem_mergeSort, scoreAll]
    exact List.mem_map.mpr ⟨q, hq, rfl⟩

/-- Claim C6 witness: the hide-branch characterisation evaluated at a
one-entry post map and a concrete hide filter. -/
theorem C6_witness :
    applyFilter [("1", ⟨"a", false⟩)] ⟨"q", Mode.hide, (fun _ => 0), 20, 0.5⟩
      = [(("1", ⟨"a", false⟩) : String × PostData)].map fun q =>
          if (0.5 : ℝ) ≤ relevance q.2.text (fun _ => 0)
          then (q.1, { q.2 with hidden := true }) else q :=
  C6_hide_accumulates [("1", ⟨"a", false⟩)] ⟨"q", Mode.hide, (fun _ => 0), 20, 0.5⟩
    rfl (by decide)

/-! ### Show branch with `topK = 0`: claim C10 -/

/-- Claim C10: `parse("show top 0 x")` produces a show filter with `topK = 0`,
and the show branch substitutes the default 20 for a zero `topK`
(`filter.topK || 20`): the retained set is the ids of the first 20 sorted
entries, so over a non-empty post map some post is always left visible. -/
theorem C10_topk_zero_default :
    ((parseCommand "show top 0 x").map fun f => (f.mode, f.topK)) = some (Mode.show', 0)
    ∧ ∀ (P : List (String × PostData)) (f : Filter), f.mode = Mode.show' → f.topK = 0 →
        applyFilter P f
          = P.map (fun q =>
              if q.1 ∈ ((sortSims (scoreAll P f.queryVec)).take 20).map (fun it => it.postId)
              then (q.1, { q.2 with hidden := false })
              else (q.1, { q.2 with hidden := true }))
        ∧ (P ≠ [] → ∃ r ∈ applyFilter P f, r.2.hidden = false) := by
  constructor
  · have h : parseCommandCore "show top 0 x" = some ⟨"x", Mode.show', 0, 1/2⟩ := by rfl
    rw [parseCommand, h]
    simp
  · intro P f hm hk
    have happ : applyFilter P f
        = P.map (fun q =>
            if q.1 ∈ ((sortSims (scoreAll P f.queryVec)).take 20).map (fun it => it.postId)
            then (q.1, { q.2 with hidden := false })
            else (q.1, { q.2 with hidden := true })) := by
      have h0 : applyFilter P f = applyShow P f := by rw [applyFilter, hm]
      rw [h0, applyShow, hk]
      simp
    refine ⟨happ, fun hne => ?_⟩
    have hlen : (sortSims (scoreAll P f.queryVec)).length = P.length := by
      rw [sortSims, List.length_mergeSort, scoreAll, List.length_map]
    have hLne : sortSims (scoreAll P f.queryVec) ≠ [] := by
      intro h0
      rw [h0] at hlen
      exact hne (List.length_eq_zero.mp hlen.symm)
    obtain ⟨it, tl, hcons⟩ := List.exists_cons_of_ne_nil hLne
    have hitL : it ∈ sortSims (scoreAll P f.queryVec) := by
      rw [hcons]; exact List.mem_cons_self it tl
    have hitems : it ∈ scoreAll P f.queryVec := by
      rw [sortSims, List.mem_mergeSort] at hitL
      exact hitL
    rw [scoreAll] at hitems
    obtain ⟨q', hq', rfl⟩ := List.mem_map.mp hitems
    have hitTop : q'.1 ∈ ((sortSims (scoreAll P f.queryVec)).take 20).map
        (fun it => it.postId) := by
      rw [hcons]
      simp [List.take_cons]
    refine ⟨(q'.1, { q'.2 with hidden := false }), ?_, rfl⟩
    rw [happ]
    exact List.mem_map.mpr ⟨q', hq', by rw [if_pos hitTop]⟩

/-- Claim C10 witness: the engine part evaluated at a single-post map and a
concrete show filter with `topK = 0`: some post stays visible. -/
theorem C10_witness :
    ∃ r ∈ applyFilter [("1", ⟨"a", false⟩)] ⟨"x", Mode.show', (fun _ => 0), 0, 0.5⟩,
      r.2.hidden = false :=
  (C10_topk_zero_default.2 [("1", ⟨"a", false⟩)] ⟨"x", Mode.show', (fun _ => 0), 0, 0.5⟩
      rfl rfl).2 (by decide)

/-! ### Batching: claim C5 -/

lemma applyRankedFiltering_preserves (st : XState) :
    (applyRankedFiltering st).postBatch = st.postBatch
    ∧ (applyRankedFiltering st).stats.processed = st.stats.processed := by
  rw [applyRankedFiltering]
  split <;> exact ⟨rfl, rfl⟩

/-- Claim C5 counterexample: a single arrival of 31 fresh posts reaches the
size threshold and triggers a pass, but the pass consumes only the first 30
buffered posts (`splice(0, batchSize)`): one post that was present at trigger
time is still in the buffer after the pass. -/
theorem C5_counterexample :
    ((processPostData ⟨[], [], [], ⟨0, 0⟩⟩
        ((List.range 31).map fun i => ⟨⟨[Char.ofNat (65 + i)]⟩, "t"⟩)).postBatch
      = [⟨"_", "t"⟩])
    ∧ ((processPostData ⟨[], [], [], ⟨0, 0⟩⟩
        ((List.range 31).map fun i => ⟨⟨[Char.ofNat (65 + i)]⟩, "t"⟩)).stats.processed = 30)
    ∧ ((processPostData ⟨[], [], [], ⟨0, 0⟩⟩
        ((List.range 31).map fun i => ⟨⟨[Char.ofNat (65 + i)]⟩, "t"⟩)).postBatch
      ≠ []) := by
  refine ⟨by decide, by decide, by decide⟩

/-- Claim C5 amended: a triggered pass consumes exactly the first
`min(batchSize, n)` posts of the buffer present at trigger time, leaving the
rest; in particular it drains the whole buffer whenever at most `batchSize`
posts are pending. -/
theorem C5_amended (st : XState) (h : ¬st.postBatch.length = 0) :
    (processBatch st).postBatch = st.postBatch.drop batchSize
    ∧ (processBatch st).stats.processed
        = st.stats.processed + min batchSize st.postBatch.length
    ∧ (st.postBatch.length ≤ batchSize → (processBatch st).postBatch = []) := by
  rw [processBatch, if_neg h]
  refine ⟨(applyRankedFiltering_preserves _).1, ?_, fun hle => ?_⟩
  · rw [(applyRankedFiltering_preserves _).2]
    simp [List.length_take]
  · rw [(applyRankedFiltering_preserves _).1]
    exact List.drop_eq_nil_of_le hle

/-- Claim C5 witness: the amended statement evaluated at a one-post buffer. -/
theorem C5_witness :
    (processBatch ⟨[], [], [⟨"a", "t"⟩], ⟨0, 0⟩⟩).postBatch
        = ([(⟨"a", "t"⟩ : Post)]).drop batchSize
    ∧ (processBatch ⟨[], [], [⟨"a", "t"⟩], ⟨0, 0⟩⟩).stats.processed
        = 0 + min batchSize ([(⟨"a", "t"⟩ : Post)]).length
    ∧ (([(⟨"a", "t"⟩ : Post)]).length ≤ batchSize
        → (processBatch ⟨[], [], [⟨"a", "t"⟩], ⟨0, 0⟩⟩).postBatch = []) :=
  C5_amended ⟨[], [], [⟨"a", "t"⟩], ⟨0, 0⟩⟩ (by decide)

/-! ### Show branch exhaustiveness: claim C4 -/

lemma simLE_trans : ∀ a b c : Sim, simLE a b → simLE b c → simLE a c := by
  intro a b c h1 h2
  simp only [simLE, decide_eq_true_eq] at *
  exact le_trans h2 h1

lemma simLE_total : ∀ a b : Sim, simLE a b || simLE b a := by
  intro a b
  simpa [simLE] using le_total b.similarity a.similarity

/-- Every branch of a filter application rewrites an entry to one with the same
key and text; mapping with any function blind to the `hidden` flag therefore
commutes with filter application. -/
lemma applyFilter_map {β : Type} (G : String × PostData → β)
    (hG : ∀ (k : String) (pd : PostData) (b : Bool), G (k, ⟨pd.text, b⟩) = G (k, pd))
    (P : List (String × PostData)) (f : Filter) :
    (applyFilter P f).map G = P.map G := by
  cases hm : f.mode
  · rw [applyFilter, hm, applyHide, foldl_hideStep, List.map_map]
    refine List.map_congr_left fun q _ => ?_
    rw [Function.comp_apply, foldl_entry]
    split_ifs
    · exact hG q.1 q.2 true
    · rfl
  · rw [applyFilter, hm, applyShow, List.map_map]
    refine List.map_congr_left fun q _ => ?_
    rw [Function.comp_apply]
    split_ifs <;> first | exact hG q.1 q.2 false | exact hG q.1 q.2 true

lemma applyFilters_map {β : Type} (G : String × PostData → β)
    (hG : ∀ (k : String) (pd : PostData) (b : Bool), G (k, ⟨pd.text, b⟩) = G (k, pd))
    (fs : List Filter) (P : List (String × PostData)) :
    ((fs.foldl applyFilter P).map G) = P.map G := by
  induction fs generalizing P with
  | nil => rfl
  | cons f fs ih => rw [List.foldl_cons, ih, applyFilter_map G hG]

lemma applyFilters_fst (fs : List Filter) (P : List (String × PostData)) :
    ((fs.foldl applyFilter P).map Prod.fst) = P.map Prod.fst :=
  applyFilters_map Prod.fst (fun _ _ _ => rfl) fs P

lemma applyFilters_length (fs : List Filter) (P : List (String × PostData)) :
    (fs.foldl applyFilter P).length = P.length := by
  have := congrArg List.length (applyFilters_fst fs P)
  simpa using this

lemma countP_add_countP_not {α : Type} (p : α → Bool) (l : List α) :
    l.countP p + l.countP (fun a => !p a) = l.length := by
  induction l with
  | nil => simp
  | cons a t ih =>
    rw [List.countP_cons, List.countP_cons, List.length_cons]
    cases hpa : p a <;> simp [hpa] <;> omega

lemma length_filter_mem {l s : List String} (hl : l.Nodup) (hs : s.Nodup) (hsub : s ⊆ l) :
    (l.filter fun a => decide (a ∈ s)).length = s.length := by
  have h1 : (l.filter fun a => decide (a ∈ s)) <+~ s := by
    apply List.subperm_of_subset (hl.filter _)
    intro x hx
    exact of_decide_eq_true (List.mem_filter.mp hx).2
  have h2 : s <+~ (l.filter fun a => decide (a ∈ s)) := by
    apply List.subperm_of_subset hs
    intro x hx
    exact List.mem_filter.mpr ⟨hsub hx, by simpa⟩
  exact ((h1.antisymm h2).length_eq)

lemma sublist_pair_or {α : Type} (a b : α) (l : List α) (ha : a ∈ l) (hb : b ∈ l)
    (hne : a ≠ b) : [a, b] <+ l ∨ [b, a] <+ l := by
  induction l with
  | nil => cases ha
  | cons x t ih =>
    rcases List.mem_cons.mp ha with rfl | hat
    · have hbt : b ∈ t := by
        rcases List.mem_cons.mp hb with h | h
        · exact absurd h.symm hne
        · exact h
      exact Or.inl (List.Sublist.cons₂ _ (List.singleton_sublist.mpr hbt))
    · rcases List.mem_cons.mp hb with rfl | hbt
      · exact Or.inr (List.Sublist.cons₂ _ (List.singleton_sublist.mpr hat))
      · exact (ih hat hbt).imp (List.Sublist.cons _) (List.Sublist.cons _)

lemma no_opposite_sublists {α : Type} {l : List α} (hnd : l.Nodup) {a b : α}
    (h1 : [a, b] <+ l) (h2 : [b, a] <+ l) : False := by
  induction l with
  | nil => simp at h1
  | cons x t ih =>
    rw [List.nodup_cons] at hnd
    obtain ⟨hx, hnd'⟩ := hnd
    cases h1 with
    | cons _ h1' =>
      cases h2 with
      | cons _ h2' => exact ih hnd' h1' h2'
      | cons₂ _ h2' => exact hx (h1'.subset (by simp))
    | cons₂ _ h1' =>
      cases h2 with
      | cons _ h2' => exact hx (h2'.subset (by simp))
      | cons₂ _ h2' => exact hx (h2'.subset (by simp))

lemma applyShow_eq (P : List (String × PostData)) (f : Filter) (K : Nat)
    (hK : f.topK = K) (hKpos : 0 < K) :
    applyShow P f = P.map (fun q =>
      if q.1 ∈ ((sortSims (scoreAll P f.queryVec)).take K).map (fun it => it.postId)
      then (q.1, { q.2 with hidden := false }) else (q.1, { q.2 with hidden := true })) := by
  simp only [applyShow]
  rw [hK, if_neg (by omega : ¬K = 0)]

lemma applyShow_spec (P : List (String × PostData)) (f : Filter) (K : Nat)
    (hnd : (P.map Prod.fst).Nodup) (hK : f.topK = K) (hKpos : 0 < K) (hKN : K ≤ P.length) :
    ((applyShow P f).filter fun q => !q.2.hidden).length = K
    ∧ ((applyShow P f).filter fun q => q.2.hidden).length = P.length - K
    ∧ ∀ p ∈ applyShow P f, ∀ q ∈ applyShow P f,
        p.2.hidden = false → q.2.hidden = true →
        relevance q.2.text f.queryVec < relevance p.2.text f.queryVec
        ∨ (relevance q.2.text f.queryVec = relevance p.2.text f.queryVec
           ∧ [p.1, q.1] <+ (applyShow P f).map Prod.fst) := by
  have happ := applyShow_eq P f K hK hKpos
  have hperm : sortSims (scoreAll P f.queryVec) ~ scoreAll P f.queryVec := by
    rw [sortSims]
    exact mergeSort_perm _ _
  have hitems_fst : (scoreAll P f.queryVec).map (fun it => it.postId) = P.map Prod.fst := by
    rw [scoreAll, map_map]
    rfl
  have hndIf : ((scoreAll P f.queryVec).map (fun it => it.postId)).Nodup := by
    rw [hitems_fst]
    exact hnd
  have hnditems : (scoreAll P f.queryVec).Nodup := Nodup.of_map _ hndIf
  have hndsorted : (sortSims (scoreAll P f.queryVec)).Nodup := hperm.symm.nodup hnditems
  have hsortfstperm : (sortSims (scoreAll P f.queryVec)).map (fun it => it.postId)
      ~ P.map Prod.fst := by
    rw [← hitems_fst]
    exact hperm.map _
  have hndsortfst : ((sortSims (scoreAll P f.queryVec)).map (fun it => it.postId)).Nodup :=
    hsortfstperm.symm.nodup hnd
  have hlen : (sortSims (scoreAll P f.queryVec)).length = P.length :=
    hperm.length_eq.trans (by rw [scoreAll, length_map])
  have htoplen : (((sortSims (scoreAll P f.queryVec)).take K).map (fun it => it.postId)).length
      = K := by
    rw [length_map, length_take, hlen, Nat.min_eq_left hKN]
  have htopnd : (((sortSims (scoreAll P f.queryVec)).take K).map (fun it => it.postId)).Nodup :=
    Nodup.sublist ((take_sublist K _).map _) hndsortfst
  have htopsub : ((sortSims (scoreAll P f.queryVec)).take K).map (fun it => it.postId)
      ⊆ P.map Prod.fst := by
    intro x hx
    obtain ⟨it, hit, rfl⟩ := mem_map.mp hx
    exact hsortfstperm.subset (mem_map_of_mem _ ((take_sublist K _).subset hit))
  have hcount : P.countP (fun q => decide (q.1
      ∈ ((sortSims (scoreAll P f.queryVec)).take K).map (fun it => it.postId))) = K := by
    have h1 : (P.map Prod.fst).countP (fun x => decide (x
        ∈ ((sortSims (scoreAll P f.queryVec)).take K).map (fun it => it.postId)))
        = P.countP ((fun x => decide (x
        ∈ ((sortSims (scoreAll P f.queryVec)).take K).map (fun it => it.postId)))
          ∘ Prod.fst) := countP_map _ _ P
    have h2 : ((fun x => decide (x
        ∈ ((sortSims (scoreAll P f.queryVec)).take K).map (fun it => it.postId)))
          ∘ Prod.fst : String × PostData → Bool)
        = fun q => decide (q.1
          ∈ ((sortSims (scoreAll P f.queryVec)).take K).map (fun it => it.postId)) := rfl
    rw [h2] at h1
    rw [← h1, countP_eq_length_filter, length_filter_mem hnd htopnd htopsub, htoplen]
  have hvisP : P.countP ((fun q => !q.2.hidden) ∘ (fun q =>
      if q.1 ∈ ((sortSims (scoreAll P f.queryVec)).take K).map (fun it => it.postId)
      then (q.1, { q.2 with hidden := false }) else (q.1, { q.2 with hidden := true })))
      = P.countP (fun q => decide (q.1
          ∈ ((sortSims (scoreAll P f.queryVec)).take K).map (fun it => it.postId))) := by
    apply countP_congr
    intro q _
    simp only [Function.comp_apply]
    by_cases hc : q.1 ∈ ((sortSims (scoreAll P f.queryVec)).take K).map (fun it => it.postId)
    · rw [if_pos hc]
      exact ⟨fun _ => decide_eq_true hc, fun _ => rfl⟩
    · rw [if_neg hc]
      exact ⟨fun hfalse => absurd hfalse (by simp), fun hdec => absurd (of_decide_eq_true hdec) hc⟩
  have hvis : ((applyShow P f).filter fun q => !q.2.hidden).length = K := by
    rw [happ, ← countP_eq_length_filter, countP_map, hvisP, hcount]
  have hhid : ((applyShow P f).filter fun q => q.2.hidden).length = P.length - K := by
    rw [happ, ← countP_eq_length_filter, countP_map]
    have hnot : P.countP ((fun q => q.2.hidden) ∘ (fun q =>
        if q.1 ∈ ((sortSims (scoreAll P f.queryVec)).take K).map (fun it => it.postId)
        then (q.1, { q.2 with hidden := false }) else (q.1, { q.2 with hidden := true })))
        = P.countP (fun a => !((fun q => !q.2.hidden) ∘ (fun q =>
        if q.1 ∈ ((sortSims (scoreAll P f.queryVec)).take K).map (fun it => it.postId)
        then (q.1, { q.2 with hidden := false }) else (q.1, { q.2 with hidden := true }))) a) := by
      apply countP_congr
      intro q _
      simp only [Function.comp_apply, Bool.not_not]
    rw [hnot]
    have hadd := countP_add_countP_not ((fun q => !q.2.hidden) ∘ (fun q =>
        if q.1 ∈ ((sortSims (scoreAll P f.queryVec)).take K).map (fun it => it.postId)
        then (q.1, { q.2 with hidden := false }) else (q.1, { q.2 with hidden := true }))) P
    rw [hvisP, hcount] at hadd
    omega
  refine ⟨hvis, hhid, ?_⟩
  intro p hp q hq hpf hqt
  rw [happ] at hp hq
  obtain ⟨p₀, hp₀, rfl⟩ := mem_map.mp hp
  obtain ⟨q₀, hq₀, rfl⟩ := mem_map.mp hq
  by_cases hcp : p₀.1 ∈ ((sortSims (scoreAll P f.queryVec)).take K).map (fun it => it.postId)
  case neg =>
    rw [if_neg hcp] at hpf
    simp at hpf
  by_cases hcq : q₀.1 ∈ ((sortSims (scoreAll P f.queryVec)).take K).map (fun it => it.postId)
  case pos =>
    rw [if_pos hcq] at hqt
    simp at hqt
  rw [if_pos hcp] at hpf ⊢
  rw [if_neg hcq] at hqt ⊢
  show relevance q₀.2.text f.queryVec < relevance p₀.2.text f.queryVec
    ∨ (relevance q₀.2.text f.queryVec = relevance p₀.2.text f.queryVec
       ∧ [p₀.1, q₀.1] <+ (applyShow P f).map Prod.fst)
  have hpI : (⟨p₀.1, relevance p₀.2.text f.queryVec, p₀.2⟩ : Sim) ∈ scoreAll P f.queryVec := by
    rw [scoreAll]
    exact mem_map_of_mem _ hp₀
  have hqI : (⟨q₀.1, relevance q₀.2.text f.queryVec, q₀.2⟩ : Sim) ∈ scoreAll P f.queryVec := by
    rw [scoreAll]
    exact mem_map_of_mem _ hq₀
  obtain ⟨itp, hitpTake, hpid⟩ := mem_map.mp hcp
  have hitpItems : itp ∈ scoreAll P f.queryVec :=
    hperm.subset ((take_sublist K _).subset hitpTake)
  have hitp_eq : itp = ⟨p₀.1, relevance p₀.2.text f.queryVec, p₀.2⟩ :=
    inj_on_of_nodup_map hndIf hitpItems hpI hpid
  rw [hitp_eq] at hitpTake
  have hqS : (⟨q₀.1, relevance q₀.2.text f.queryVec, q₀.2⟩ : Sim)
      ∈ sortSims (scoreAll P f.queryVec) := hperm.symm.subset hqI
  have hqSplit : (⟨q₀.1, relevance q₀.2.text f.queryVec, q₀.2⟩ : Sim)
      ∈ (sortSims (scoreAll P f.queryVec)).take K
        ++ (sortSims (scoreAll P f.queryVec)).drop K := by
    rw [take_append_drop]
    exact hqS
  have hqDrop : (⟨q₀.1, relevance q₀.2.text f.queryVec, q₀.2⟩ : Sim)
      ∈ (sortSims (scoreAll P f.queryVec)).drop K := by
    rcases mem_append.mp hqSplit with hin | hout
    · exact absurd (mem_map_of_mem (fun it => it.postId) hin) hcq
    · exact hout
  have hsortedPW : (sortSims (scoreAll P f.queryVec)).Pairwise (fun a b => simLE a b = true) := by
    rw [sortSims]
    exact sorted_mergeSort simLE_trans simLE_total _
  have hsplitPW : ((sortSims (scoreAll P f.queryVec)).take K
      ++ (sortSims (scoreAll P f.queryVec)).drop K).Pairwise (fun a b => simLE a b = true) := by
    rw [take_append_drop]
    exact hsortedPW
  have hle := (pairwise_append.mp hsplitPW).2.2 _ hitpTake _ hqDrop
  rw [simLE, decide_eq_true_eq] at hle
  rcases lt_or_eq_of_le hle with hlt | heq
  · exact Or.inl hlt
  · refine Or.inr ⟨heq, ?_⟩
    have hmapfst : (applyShow P f).map Prod.fst = P.map Prod.fst := by
      rw [happ, map_map]
      refine map_congr_left fun r _ => ?_
      rw [Function.comp_apply]
      split_ifs <;> rfl
    rw [hmapfst, ← hitems_fst]
    have hneItem : (⟨p₀.1, relevance p₀.2.text f.queryVec, p₀.2⟩ : Sim)
        ≠ ⟨q₀.1, relevance q₀.2.text f.queryVec, q₀.2⟩ := by
      intro hh
      have h5 : p₀.1 = q₀.1 := congrArg Sim.postId hh
      exact hcq (h5 ▸ hcp)
    rcases sublist_pair_or _ _ _ hpI hqI hneItem with hgood | hbad
    · have := hgood.map (fun it => it.postId)
      simpa using this
    · exfalso
      have hle2 : simLE (⟨q₀.1, relevance q₀.2.text f.queryVec, q₀.2⟩ : Sim)
          ⟨p₀.1, relevance p₀.2.text f.queryVec, p₀.2⟩ = true := by
        rw [simLE, decide_eq_true_eq]
        exact le_of_eq heq.symm
      have hbadSorted : [(⟨q₀.1, relevance q₀.2.text f.queryVec, q₀.2⟩ : Sim),
          ⟨p₀.1, relevance p₀.2.text f.queryVec, p₀.2⟩] <+ sortSims (scoreAll P f.queryVec) := by
        rw [sortSims]
        exact pair_sublist_mergeSort simLE_trans simLE_total hle2 hbad
      have hfwd : [(⟨p₀.1, relevance p₀.2.text f.queryVec, p₀.2⟩ : Sim),
          ⟨q₀.1, relevance q₀.2.text f.queryVec, q₀.2⟩] <+ sortSims (scoreAll P f.queryVec) := by
        have h1 : [(⟨p₀.1, relevance p₀.2.text f.queryVec, p₀.2⟩ : Sim)]
            <+ (sortSims (scoreAll P f.queryVec)).take K := singleton_sublist.mpr hitpTake
        have h2 : [(⟨q₀.1, relevance q₀.2.text f.queryVec, q₀.2⟩ : Sim)]
            <+ (sortSims (scoreAll P f.queryVec)).drop K := singleton_sublist.mpr hqDrop
        have h3 := h1.append h2
        rwa [take_append_drop] at h3
      exact no_opposite_sublists hndsorted hfwd hbadSorted

/-- Claim C4: after a filtering pass whose last filter is show-mode with
`topK = K` (`K ≥ 1`, the parsed value; a zero `topK` instead triggers the
default 20, see claim C10) over `N ≥ K` known posts with distinct ids, exactly
`K` posts end up visible and `N - K` hidden, and every visible post either
strictly out-scores every hidden post against that filter's query vector or
ties with it and precedes it in the pre-existing map iteration order (the
tie rule of the stable descending sort). -/
theorem C4_show_exhaustive (st : XState) (fs : List Filter) (f : Filter) (K : Nat)
    (hfl : st.filters = fs ++ [f]) (hm : f.mode = Mode.show') (hK : f.topK = K)
    (hKpos : 0 < K) (hKN : K ≤ st.processedPosts.length)
    (hnd : (st.processedPosts.map Prod.fst).Nodup) :
    (((applyRankedFiltering st).processedPosts.filter fun q => !q.2.hidden).length = K)
    ∧ (((applyRankedFiltering st).processedPosts.filter fun q => q.2.hidden).length
        = st.processedPosts.length - K)
    ∧ ∀ p ∈ (applyRankedFiltering st).processedPosts,
        ∀ q ∈ (applyRankedFiltering st).processedPosts,
          p.2.hidden = false → q.2.hidden = true →
          relevance q.2.text f.queryVec < relevance p.2.text f.queryVec
          ∨ (relevance q.2.text f.queryVec = relevance p.2.text f.queryVec
             ∧ [p.1, q.1] <+ (applyRankedFiltering st).processedPosts.map Prod.fst) := by
  have hflne : ¬st.filters.length = 0 := by
    rw [hfl]
    simp
  have hres : (applyRankedFiltering st).processedPosts
      = applyShow (fs.foldl applyFilter st.processedPosts) f := by
    rw [applyRankedFiltering, if_neg hflne, hfl]
    show (fs ++ [f]).foldl applyFilter st.processedPosts = _
    rw [List.foldl_append, List.foldl_cons, List.foldl_nil, applyFilter, hm]
  have hndP' : ((fs.foldl applyFilter st.processedPosts).map Prod.fst).Nodup := by
    rw [applyFilters_fst]
    exact hnd
  have hlenP' : K ≤ (fs.foldl applyFilter st.processedPosts).length := by
    rw [applyFilters_length]
    exact hKN
  have hspec := applyShow_spec (fs.foldl applyFilter st.processedPosts) f K hndP' hK hKpos hlenP'
  rw [applyFilters_length] at hspec
  rw [hres]
  exact hspec

/-- Claim C4 witness: a pass with a single show filter (`topK = 1`) over two
distinct posts marks exactly one visible and one hidden. -/
theorem C4_witness :
    (((applyRankedFiltering
        ⟨[⟨"q", Mode.show', (fun _ => 0), 1, 0.5⟩],
         [("1", ⟨"a", false⟩), ("2", ⟨"b", true⟩)], [], ⟨0, 0⟩⟩).processedPosts.filter
      fun q => !q.2.hidden).length = 1)
    ∧ (((applyRankedFiltering
        ⟨[⟨"q", Mode.show', (fun _ => 0), 1, 0.5⟩],
         [("1", ⟨"a", false⟩), ("2", ⟨"b", true⟩)], [], ⟨0, 0⟩⟩).processedPosts.filter
      fun q => q.2.hidden).length
        = ([("1", (⟨"a", false⟩ : PostData)), ("2", ⟨"b", true⟩)]).length - 1) := by
  have h := C4_show_exhaustive
    ⟨[⟨"q", Mode.show', (fun _ => 0), 1, 0.5⟩],
     [("1", ⟨"a", false⟩), ("2", ⟨"b", true⟩)], [], ⟨0, 0⟩⟩
    [] ⟨"q", Mode.show', (fun _ => 0), 1, 0.5⟩ 1 rfl rfl rfl (by decide) (by decide) (by decide)
  exact ⟨h.1, h.2.1⟩

end XFC
